import Mathlib

/-!
Shallow embedding of the base85 codec module of the mom repository
(ASCII85 and RFC1924 base85 encoding and decoding).

Bytes and characters are modelled as natural numbers and byte or character
strings as lists of natural numbers.  Python exceptions are modelled with the
PyErr type below together with Except.  Every definition follows the source
line by line; machine arithmetic appears only where the source performs it
(the struct pack and unpack calls on 32-bit big-endian words).
-/

/-- The Python exception outcomes raised by the base85 codec functions, one
constructor per raise site or library failure reached by the source. -/
inductive PyErr where
  | unicodeDecodeError : PyErr
  | overflowChunk : List Nat → PyErr
  | structError : PyErr
  | valueLengthError : List Nat → PyErr
  | valueWhitespace : PyErr
  | keyError : Nat → PyErr
  | valueNegative : PyErr
  | overflowTooLarge : PyErr
deriving DecidableEq

/-- Converts an ordinal into its ASCII85 character code. -/
def ascii85_chr (num : Nat) : Nat := num + 33

/-- Converts an ASCII85 character code into its ordinal. -/
def ascii85_ord (char : Nat) : Nat := char - 33

/-- The 85 ASCII85 characters, as character codes. -/
def ASCII85_CHARS : List Nat := (List.range 85).map ascii85_chr

/-- The ASCII85 ordinal dictionary, as an association list from character
code to ordinal. -/
def ASCII85_ORDS : List (Nat × Nat) := ASCII85_CHARS.map (fun x => (x, ascii85_ord x))

/-- The 85 RFC1924 characters: digits, uppercase letters, lowercase letters,
then the fixed punctuation tail, as character codes. -/
def RFC1924_CHARS : List Nat :=
  (List.range 10).map (fun i => 48 + i) ++
  (List.range 26).map (fun i => 65 + i) ++
  (List.range 26).map (fun i => 97 + i) ++
  [33, 35, 36, 37, 38, 40, 41, 42, 43, 45, 59, 60, 61, 62, 63, 64, 94, 95, 96, 123, 124, 125, 126]

/-- The RFC1924 ordinal dictionary: each character code paired with its index. -/
def RFC1924_ORDS : List (Nat × Nat) := RFC1924_CHARS.zip (List.range 85)

/-- The Python string.whitespace character codes. -/
def WHITESPACE_CHARS : List Nat := [9, 10, 11, 12, 13, 32]

/-- The big-endian 32-bit value of four bytes, as read by unpack with one L
of standard size. -/
def beUint32 (b0 b1 b2 b3 : Nat) : Nat := ((b0 * 256 + b1) * 256 + b2) * 256 + b3

/-- Splits a byte list into consecutive four-byte groups, each read as a
big-endian 32-bit value.  Call sites only pass lists whose length is a
multiple of four. -/
def unpackUint32s : List Nat → List Nat
  | b0 :: b1 :: b2 :: b3 :: rest => beUint32 b0 b1 b2 b3 :: unpackUint32s rest
  | _ => []

/-- The five base85 digit characters of one 32-bit value, unrolled with the
same divisor constants as the source. -/
def encodeUint32 (base85_chars : List Nat) (x : Nat) : List Nat :=
  [base85_chars.getD (x / 52200625) 0,
   base85_chars.getD (x / 614125 % 85) 0,
   base85_chars.getD (x / 7225 % 85) 0,
   base85_chars.getD (x / 85 % 85) 0,
   base85_chars.getD (x % 85) 0]

/-- The encode loop: extends the output with the digit group of every 32-bit
value in turn. -/
def encodeAll (base85_chars : List Nat) : List Nat → List Nat
  | [] => []
  | x :: rest => encodeUint32 base85_chars x ++ encodeAll base85_chars rest

/-- Fuel-indexed model of the Python string replace method for a nonempty
pattern: scans left to right and substitutes non-overlapping occurrences.
Every call site passes at least the length of the scanned list as fuel, so
the fuel guard case is never reached. -/
def pyReplaceAux (pat rep : List Nat) : Nat → List Nat → List Nat
  | _, [] => []
  | 0, s => s
  | fuel + 1, c :: rest =>
    if pat.isPrefixOf (c :: rest) then
      rep ++ pyReplaceAux pat rep fuel ((c :: rest).drop pat.length)
    else c :: pyReplaceAux pat rep fuel rest

/-- The Python string replace method on character-code lists, for a nonempty
pattern. -/
def pyReplace (s pat rep : List Nat) : List Nat := pyReplaceAux pat rep s.length s

/-- The number of zero bytes appended by b85encode: the divmod computation
of the source, nonzero exactly when the length is not a multiple of four. -/
def encPaddingSize (n : Nat) : Nat := if n % 4 ≠ 0 then 4 - n % 4 else 0

/-- The number of filler characters appended by b85decode: the divmod
computation of the source, nonzero exactly when the length is not a multiple
of five. -/
def decPaddingSize (n : Nat) : Nat := if n % 5 ≠ 0 then 5 - n % 5 else 0

/-- The concatenated digit characters of b85encode before zero-run
compression: zero-byte padding to a multiple of four, per-block digit groups,
and removal of as many trailing characters as padding bytes were added when
the internal padding flag is off. -/
def b85encodeChars (raw_bytes : List Nat) (pad : Bool) (base85_chars : List Nat) : List Nat :=
  let padding_size := encPaddingSize raw_bytes.length
  let ascii_chars := encodeAll base85_chars (unpackUint32s (raw_bytes ++ List.replicate padding_size 0))
  if padding_size ≠ 0 ∧ pad = false then ascii_chars.take (ascii_chars.length - padding_size)
  else ascii_chars

/-- ASCII85 encodes a byte list: digit characters, zero-run compression
replacing every occurrence of the five-character all-zero group (code 33
five times) with the single character of code 122, then the literal
wrappers.  The byte type check of the source is enforced by typing here. -/
def b85encode (raw_bytes pre suf : List Nat) (pad : Bool) (base85_chars : List Nat) : List Nat :=
  pre ++ pyReplace (b85encodeChars raw_bytes pad base85_chars) [33, 33, 33, 33, 33] [122] ++ suf

/-- Strips one leading occurrence of pre when pre is nonempty and present. -/
def stripLeading (pre s : List Nat) : List Nat :=
  if pre ≠ [] ∧ pre.isPrefixOf s = true then s.drop pre.length else s

/-- Strips one trailing occurrence of suf when suf is nonempty and present. -/
def stripTrailing (suf s : List Nat) : List Nat :=
  if suf ≠ [] ∧ suf.isSuffixOf s = true then s.take (s.length - suf.length) else s

/-- The decode text preparation: whitespace removal when the ignore pattern
is active, wrapper stripping, and expansion of every compression marker
(code 122) back into the five-character zero group. -/
def decodePreprocess (encoded pre suf : List Nat) (strip_ws : Bool) : List Nat :=
  let e1 := if strip_ws then encoded.filter (fun c => !(WHITESPACE_CHARS.contains c)) else encoded
  pyReplace (stripTrailing suf (stripLeading pre e1)) [122] [33, 33, 33, 33, 33]

/-- The four big-endian bytes of one in-range 32-bit value, as written by
pack with one L of standard size. -/
def packUint32 (x : Nat) : List Nat := [x / 16777216, x / 65536 % 256, x / 256 % 256, x % 256]

/-- The struct pack call with one L per value: range-checks each value and
concatenates the big-endian bytes; an out-of-range value raises the struct
error. -/
def packUint32s : List Nat → Except PyErr (List Nat)
  | [] => .ok []
  | x :: rest =>
    if x ≤ 4294967295 then
      match packUint32s rest with
      | .ok bs => .ok (packUint32 x ++ bs)
      | .error err => .error err
    else .error .structError

/-- The decode loop over consecutive five-character groups: looks up the
five ordinals, raising the overflow chunk error when a character is missing
from the dictionary, and accumulates the base85 value of each group. -/
def parseChunks (base85_ords : List (Nat × Nat)) : List Nat → Except PyErr (List Nat)
  | a :: b :: c :: d :: e :: rest =>
    match base85_ords.lookup a, base85_ords.lookup b, base85_ords.lookup c,
          base85_ords.lookup d, base85_ords.lookup e with
    | some oa, some ob, some oc, some od, some oe =>
      (match parseChunks base85_ords rest with
       | .ok vs => .ok (((((oa * 85 + ob) * 85 + oc) * 85 + od) * 85 + oe) :: vs)
       | .error err => .error err)
    | _, _, _, _, _ => .error (.overflowChunk [a, b, c, d, e])
  | _ => .ok []

/-- The body of b85decode after text preparation: pads the text with the
character of code 117 to a multiple of five, parses the groups, packs the
values, and drops as many trailing bytes as characters were added. -/
def b85decodeBody (base85_ords : List (Nat × Nat)) (e : List Nat) : Except PyErr (List Nat) :=
  let padding_size := decPaddingSize e.length
  match parseChunks base85_ords (e ++ List.replicate padding_size 117) with
  | .error err => .error err
  | .ok vs =>
    match packUint32s vs with
    | .error err => .error err
    | .ok raw => .ok (if padding_size ≠ 0 then raw.take (raw.length - padding_size) else raw)

/-- Decodes a base85 encoded text into raw bytes.  The latin1 re-encoding
step of the source restricts the text to single-byte characters. -/
def b85decode (encoded pre suf : List Nat) (strip_ws : Bool) (base85_ords : List (Nat × Nat)) :
    Except PyErr (List Nat) :=
  if ∀ c ∈ encoded, c < 256 then
    b85decodeBody base85_ords (decodePreprocess encoded pre suf strip_ws)
  else .error .unicodeDecodeError

/-- Base85 encodes with the RFC1924 character set. -/
def rfc1924_b85encode (raw_bytes : List Nat) : List Nat :=
  b85encode raw_bytes [] [] false RFC1924_CHARS

/-- Base85 decodes with the RFC1924 character set. -/
def rfc1924_b85decode (encoded : List Nat) : Except PyErr (List Nat) :=
  b85decode encoded [] [] true RFC1924_ORDS

/-- The encode loop of the fixed-width codec: fills the given number of digit
characters right to left by repeated division by 85. -/
def ipv6Digits (base85_chars : List Nat) : Nat → Nat → List Nat
  | _, 0 => []
  | v, n + 1 => ipv6Digits base85_chars (v / 85) n ++ [base85_chars.getD (v % 85) 0]

/-- Encodes a 128-bit unsigned integer with twenty RFC1924 base85 digits; a
negative value raises the value error and a value above the 128-bit maximum
raises the overflow error. -/
def ipv6_b85encode (uint128 : Int) (base85_chars : List Nat) : Except PyErr (List Nat) :=
  if uint128 < 0 then .error .valueNegative
  else if uint128 > 340282366920938463463374607431768211455 then .error .overflowTooLarge
  else .ok (ipv6Digits base85_chars uint128.toNat 20)

/-- The decode loop of the fixed-width codec: rejects whitespace, looks up
each ordinal, and accumulates the base85 value left to right. -/
def ipv6DecodeLoop (base85_ords : List (Nat × Nat)) (ws : List Nat) :
    Nat → List Nat → Except PyErr Nat
  | acc, [] => .ok acc
  | acc, c :: rest =>
    if c ∈ ws then .error .valueWhitespace
    else
      match base85_ords.lookup c with
      | some o => ipv6DecodeLoop base85_ords ws (acc * 85 + o) rest
      | none => .error (.keyError c)

/-- Decodes a twenty-character RFC1924 base85 text to its 128-bit unsigned
integral value; any other length raises the value error.  The latin1
re-encoding step of the source restricts the text to single-byte
characters. -/
def ipv6_b85decode (encoded : List Nat) (base85_ords : List (Nat × Nat)) (ws : List Nat) :
    Except PyErr Nat :=
  if ∀ c ∈ encoded, c < 256 then
    if encoded.length ≠ 20 then .error (.valueLengthError encoded)
    else ipv6DecodeLoop base85_ords ws 0 encoded
  else .error .unicodeDecodeError

/-- Modelled from the spec for the padding sentence of claim C8 only: the
decode body padded on the right with a given filler character, intended to
be the character of ordinal 84 of the active alphabet, in place of the
literal character of code 117 that the source uses. -/
def b85decodeBodySpecFiller (filler : Nat) (base85_ords : List (Nat × Nat)) (e : List Nat) :
    Except PyErr (List Nat) :=
  let padding_size := decPaddingSize e.length
  match parseChunks base85_ords (e ++ List.replicate padding_size filler) with
  | .error err => .error err
  | .ok vs =>
    match packUint32s vs with
    | .error err => .error err
    | .ok raw => .ok (if padding_size ≠ 0 then raw.take (raw.length - padding_size) else raw)

/-- Modelled from the spec for claim C8 only: b85decode with the padding
filler taken from the active alphabet rather than hardcoded. -/
def b85decodeSpecFiller (encoded pre suf : List Nat) (base85_ords : List (Nat × Nat))
    (filler : Nat) : Except PyErr (List Nat) :=
  if ∀ c ∈ encoded, c < 256 then
    b85decodeBodySpecFiller filler base85_ords (decodePreprocess encoded pre suf true)
  else .error .unicodeDecodeError

/-! ### Generic helper lemmas -/

theorem lookup_mem_pairs {l : List (Nat × Nat)} {c o : Nat} (h : l.lookup c = some o) :
    (c, o) ∈ l := by
  induction l with
  | nil => simp [List.lookup] at h
  | cons p rest ih =>
    rw [List.lookup] at h
    by_cases hc : c = p.1
    · subst hc
      simp at h
      subst h
      exact List.mem_cons_self _ _
    · have hb : (c == p.1) = false := by simp [hc]
      rw [hb] at h
      exact List.mem_cons_of_mem _ (ih h)

theorem isPrefixOf_append_drop {p s : List Nat} (h : p.isPrefixOf s = true) :
    p ++ s.drop p.length = s := by
  induction p generalizing s with
  | nil => simp
  | cons a p ih =>
    cases s with
    | nil => simp [List.isPrefixOf] at h
    | cons b s =>
      rw [List.isPrefixOf, Bool.and_eq_true, beq_iff_eq] at h
      obtain ⟨rfl, h2⟩ := h
      simp [ih h2]

theorem isPrefixOf_length_le {p s : List Nat} (h : p.isPrefixOf s = true) :
    p.length ≤ s.length := by
  induction p generalizing s with
  | nil => simp
  | cons a p ih =>
    cases s with
    | nil => simp [List.isPrefixOf] at h
    | cons b s =>
      rw [List.isPrefixOf, Bool.and_eq_true] at h
      simpa using ih h.2

theorem isPrefixOf_refl_append (p t : List Nat) : p.isPrefixOf (p ++ t) = true := by
  induction p with
  | nil => simp [List.isPrefixOf]
  | cons a p ih => simp [List.isPrefixOf, ih]

/-! ### Alphabet table lemmas -/

theorem ascii85_getD {i : Nat} (h : i < 85) : ASCII85_CHARS.getD i 0 = i + 33 := by
  revert i h
  decide

theorem ascii85_lookup {i : Nat} (h : i < 85) : ASCII85_ORDS.lookup (i + 33) = some i := by
  revert i h
  decide

theorem ascii85_lookup_getD {i : Nat} (h : i < 85) :
    ASCII85_ORDS.lookup (ASCII85_CHARS.getD i 0) = some i := by
  rw [ascii85_getD h]
  exact ascii85_lookup h

theorem ascii85_ords_range {c o : Nat} (h : ASCII85_ORDS.lookup c = some o) :
    33 ≤ c ∧ c ≤ 117 ∧ o = c - 33 := by
  have hmem := lookup_mem_pairs h
  have hall : ∀ p ∈ ASCII85_ORDS, 33 ≤ p.1 ∧ p.1 ≤ 117 ∧ p.2 = p.1 - 33 := by decide
  exact hall _ hmem

theorem rfc1924_getD_facts {d : Nat} (h : d < 85) :
    RFC1924_CHARS.getD d 0 < 256 ∧
      RFC1924_CHARS.getD d 0 ∉ WHITESPACE_CHARS ∧
      RFC1924_ORDS.lookup (RFC1924_CHARS.getD d 0) = some d := by
  revert d h
  decide

theorem ws_contains_false {c : Nat} (h : 33 ≤ c) : WHITESPACE_CHARS.contains c = false := by
  simp only [WHITESPACE_CHARS, List.contains_eq_any_beq, List.any_cons, List.any_nil,
    Bool.or_eq_false_iff, beq_eq_false_iff_ne, ne_eq, and_true]
  omega

/-! ### Replace lemmas -/

theorem pyReplaceAux_mem {pat rep : List Nat} (fuel : Nat) :
    ∀ (s : List Nat) (c : Nat), c ∈ pyReplaceAux pat rep fuel s → c ∈ s ∨ c ∈ rep := by
  induction fuel with
  | zero =>
    intro s c h
    cases s with
    | nil => simp [pyReplaceAux] at h
    | cons a rest =>
      simp only [pyReplaceAux] at h
      exact .inl h
  | succ fuel ih =>
    intro s c h
    cases s with
    | nil => simp [pyReplaceAux] at h
    | cons a rest =>
      simp only [pyReplaceAux] at h
      by_cases hp : pat.isPrefixOf (a :: rest) = true
      · rw [if_pos hp] at h
        rcases List.mem_append.mp h with h1 | h2
        · exact .inr h1
        · rcases ih _ c h2 with h3 | h4
          · exact .inl (List.mem_of_mem_drop h3)
          · exact .inr h4
      · rw [if_neg hp] at h
        rcases List.mem_cons.mp h with h1 | h2
        · exact .inl (by simp [h1])
        · rcases ih rest c h2 with h3 | h4
          · exact .inl (List.mem_cons_of_mem _ h3)
          · exact .inr h4

theorem pyReplaceAux_z_id {rep : List Nat} (fuel : Nat) :
    ∀ (s : List Nat), (∀ c ∈ s, c ≠ 122) → pyReplaceAux [122] rep fuel s = s := by
  induction fuel with
  | zero =>
    intro s hs
    cases s with
    | nil => simp [pyReplaceAux]
    | cons a rest => simp only [pyReplaceAux]
  | succ fuel ih =>
    intro s hs
    cases s with
    | nil => simp [pyReplaceAux]
    | cons a rest =>
      have ha : a ≠ 122 := hs a (by simp)
      have hp : List.isPrefixOf [122] (a :: rest) = false := by
        simp [List.isPrefixOf]
        omega
      simp only [pyReplaceAux, hp, Bool.false_eq_true, if_false]
      rw [ih rest (fun c hc => hs c (List.mem_cons_of_mem _ hc))]

theorem pyReplaceAux_nil (pat rep : List Nat) (fuel : Nat) : pyReplaceAux pat rep fuel [] = [] := by
  cases fuel <;> simp [pyReplaceAux]

theorem pyReplaceAux_step_pos {pat : List Nat} (rep : List Nat) {fuel a : Nat} {rest : List Nat}
    (hp : pat.isPrefixOf (a :: rest) = true) :
    pyReplaceAux pat rep (fuel + 1) (a :: rest) =
      rep ++ pyReplaceAux pat rep fuel (List.drop pat.length (a :: rest)) := by
  simp only [pyReplaceAux, if_pos hp]

theorem pyReplaceAux_step_neg {pat : List Nat} (rep : List Nat) {fuel a : Nat} {rest : List Nat}
    (hp : pat.isPrefixOf (a :: rest) = false) :
    pyReplaceAux pat rep (fuel + 1) (a :: rest) = a :: pyReplaceAux pat rep fuel rest := by
  simp only [pyReplaceAux, hp, Bool.false_eq_true, if_false]

theorem bang_z_inversion (fuel : Nat) :
    ∀ (s : List Nat), s.length ≤ fuel → (∀ c ∈ s, c ≠ 122) →
      pyReplace (pyReplaceAux [33, 33, 33, 33, 33] [122] fuel s) [122] [33, 33, 33, 33, 33] = s := by
  induction fuel with
  | zero =>
    intro s hlen hs
    have : s = [] := List.eq_nil_of_length_eq_zero (Nat.le_zero.mp hlen)
    subst this
    simp [pyReplace, pyReplaceAux]
  | succ fuel ih =>
    intro s hlen hs
    cases s with
    | nil => simp [pyReplace, pyReplaceAux_nil]
    | cons a rest =>
      by_cases hp : List.isPrefixOf [33, 33, 33, 33, 33] (a :: rest) = true
      · rw [pyReplaceAux_step_pos _ hp]
        have hpl : ([33, 33, 33, 33, 33] : List Nat).length = 5 := rfl
        rw [hpl]
        have hlen5 : 5 ≤ (a :: rest).length := by
          have := isPrefixOf_length_le hp
          simpa using this
        have hdl : (List.drop 5 (a :: rest)).length ≤ fuel := by
          simp only [List.length_drop]
          simp only [List.length_cons] at hlen ⊢
          omega
        have hdm : ∀ c ∈ List.drop 5 (a :: rest), c ≠ 122 :=
          fun c hc => hs c (List.mem_of_mem_drop hc)
        have ihd := ih _ hdl hdm
        rw [pyReplace] at ihd ⊢
        rw [List.singleton_append, List.length_cons]
        have hz : List.isPrefixOf [122]
            (122 :: pyReplaceAux [33, 33, 33, 33, 33] [122] fuel (List.drop 5 (a :: rest))) = true := by
          simp [List.isPrefixOf]
        rw [pyReplaceAux_step_pos _ hz]
        have h1 : ([122] : List Nat).length = 1 := rfl
        rw [h1]
        have hd1 : List.drop 1
            (122 :: pyReplaceAux [33, 33, 33, 33, 33] [122] fuel (List.drop 5 (a :: rest))) =
            pyReplaceAux [33, 33, 33, 33, 33] [122] fuel (List.drop 5 (a :: rest)) := rfl
        rw [hd1, ihd]
        exact isPrefixOf_append_drop hp
      · rw [Bool.not_eq_true] at hp
        rw [pyReplaceAux_step_neg _ hp]
        have ha : a ≠ 122 := hs a (by simp)
        have ihr := ih rest (by simp only [List.length_cons] at hlen; omega)
          (fun c hc => hs c (List.mem_cons_of_mem _ hc))
        rw [pyReplace] at ihr ⊢
        rw [List.length_cons]
        have hz : List.isPrefixOf [122]
            (a :: pyReplaceAux [33, 33, 33, 33, 33] [122] fuel rest) = false := by
          simp [List.isPrefixOf]
          omega
        rw [pyReplaceAux_step_neg _ hz, ihr]

/-! ### Codec helper lemmas -/

theorem encodeAll_length (chars : List Nat) (vs : List Nat) :
    (encodeAll chars vs).length = 5 * vs.length := by
  induction vs with
  | nil => simp [encodeAll]
  | cons v vs ih =>
    simp only [encodeAll, List.length_append, List.length_cons, ih, encodeUint32]
    simp
    ring

theorem unpack_all_lt : ∀ (l : List Nat), (∀ b ∈ l, b < 256) →
    ∀ v ∈ unpackUint32s l, v < 4294967296
  | [], _, v, hv => by simp [unpackUint32s] at hv
  | [b0], _, v, hv => by simp [unpackUint32s] at hv
  | [b0, b1], _, v, hv => by simp [unpackUint32s] at hv
  | [b0, b1, b2], _, v, hv => by simp [unpackUint32s] at hv
  | b0 :: b1 :: b2 :: b3 :: rest, h, v, hv => by
    simp only [unpackUint32s, List.mem_cons] at hv
    rcases hv with rfl | hv
    · have h0 := h b0 (by simp)
      have h1 := h b1 (by simp)
      have h2 := h b2 (by simp)
      have h3 := h b3 (by simp)
      simp only [beUint32]
      omega
    · exact unpack_all_lt rest (fun b hb => h b (by simp [hb])) v hv

theorem parseChunks_enc_cons {v : Nat} (hv : v < 4294967296) (rest : List Nat) :
    parseChunks ASCII85_ORDS (encodeUint32 ASCII85_CHARS v ++ rest) =
      (parseChunks ASCII85_ORDS rest).map (fun vs => v :: vs) := by
  have h0 : v / 52200625 < 85 := by omega
  have h1 : v / 614125 % 85 < 85 := by omega
  have h2 : v / 7225 % 85 < 85 := by omega
  have h3 : v / 85 % 85 < 85 := by omega
  have h4 : v % 85 < 85 := by omega
  simp only [encodeUint32, List.cons_append, List.nil_append, parseChunks,
    ascii85_lookup_getD h0, ascii85_lookup_getD h1, ascii85_lookup_getD h2,
    ascii85_lookup_getD h3, ascii85_lookup_getD h4]
  have hval : (((v / 52200625 * 85 + v / 614125 % 85) * 85 + v / 7225 % 85) * 85
      + v / 85 % 85) * 85 + v % 85 = v := by omega
  rw [hval]
  cases hpr : parseChunks ASCII85_ORDS rest <;> simp [hpr, Except.map]

theorem packUint32_be {b0 b1 b2 b3 : Nat} (_h0 : b0 < 256) (h1 : b1 < 256) (h2 : b2 < 256)
    (h3 : b3 < 256) : packUint32 (beUint32 b0 b1 b2 b3) = [b0, b1, b2, b3] := by
  simp only [packUint32, beUint32, List.cons.injEq, and_true]
  refine ⟨?_, ?_, ?_, ?_⟩ <;> omega

theorem packUint32s_ok_length : ∀ {vs bs : List Nat}, packUint32s vs = .ok bs →
    bs.length = 4 * vs.length := by
  intro vs
  induction vs with
  | nil =>
    intro bs h
    simp only [packUint32s, Except.ok.injEq] at h
    subst h
    simp
  | cons x vs ih =>
    intro bs h
    simp only [packUint32s] at h
    by_cases hx : x ≤ 4294967295
    · rw [if_pos hx] at h
      cases hpk : packUint32s vs with
      | ok bs2 =>
        rw [hpk] at h
        simp only [Except.ok.injEq] at h
        subst h
        simp only [List.length_append, List.length_cons, ih hpk, packUint32]
        simp
        ring
      | error e =>
        rw [hpk] at h
        simp at h
    · rw [if_neg hx] at h
      simp at h

theorem parseChunks_cons5_ok_ne_nil {ords : List (Nat × Nat)} {c1 c2 c3 c4 c5 : Nat}
    {rest vs : List Nat} (h : parseChunks ords (c1 :: c2 :: c3 :: c4 :: c5 :: rest) = .ok vs) :
    vs ≠ [] := by
  simp only [parseChunks] at h
  split at h
  · split at h
    · simp only [Except.ok.injEq] at h
      intro hn
      rw [hn] at h
      simp at h
    · simp at h
  · simp at h

theorem encPaddingSize_le (n : Nat) : encPaddingSize n ≤ 3 := by
  simp only [encPaddingSize]
  by_cases h : n % 4 ≠ 0 <;> simp [h]
  omega

theorem encPaddingSize_total (n : Nat) : (n + encPaddingSize n) % 4 = 0 := by
  simp only [encPaddingSize]
  by_cases h : n % 4 ≠ 0 <;> simp [h] <;> omega

theorem decPaddingSize_le (n : Nat) : decPaddingSize n ≤ 4 := by
  simp only [decPaddingSize]
  by_cases h : n % 5 ≠ 0 <;> simp [h]
  omega

theorem unpack_len_pos : ∀ (l : List Nat), 4 ≤ l.length → 1 ≤ (unpackUint32s l).length
  | b0 :: b1 :: b2 :: b3 :: rest, _ => by simp [unpackUint32s]
  | [], h => by simp at h
  | [b0], h => by simp at h
  | [b0, b1], h => by simp at h
  | [b0, b1, b2], h => by simp at h

theorem take_append_sub (l1 l2 : List Nat) (p : Nat) (h : p ≤ l2.length) :
    (l1 ++ l2).take ((l1 ++ l2).length - p) = l1 ++ l2.take (l2.length - p) := by
  rw [List.length_append]
  have harith : l1.length + l2.length - p = l1.length + (l2.length - p) := by omega
  rw [harith, List.take_append]

theorem b85encodeChars_cons4 (b0 b1 b2 b3 : Nat) (rest chars : List Nat) :
    b85encodeChars (b0 :: b1 :: b2 :: b3 :: rest) false chars =
      encodeUint32 chars (beUint32 b0 b1 b2 b3) ++ b85encodeChars rest false chars := by
  have hpad : encPaddingSize (b0 :: b1 :: b2 :: b3 :: rest).length = encPaddingSize rest.length := by
    simp only [encPaddingSize, List.length_cons]
    have hm : (rest.length + 1 + 1 + 1 + 1) % 4 = rest.length % 4 := by omega
    rw [hm]
  simp only [b85encodeChars, hpad, List.cons_append, unpackUint32s, encodeAll, List.append_eq]
  by_cases hp : encPaddingSize rest.length = 0
  · simp [hp]
  · rw [if_pos ⟨hp, trivial⟩, if_pos ⟨hp, trivial⟩]
    have hrne : rest.length % 4 ≠ 0 := fun hz => hp (by simp [encPaddingSize, hz])
    have hlen4 : 4 ≤ (rest ++ List.replicate (encPaddingSize rest.length) 0).length := by
      simp only [List.length_append, List.length_replicate]
      have h1 := encPaddingSize_total rest.length
      have h2 := encPaddingSize_le rest.length
      omega
    have hE : 5 ≤ (encodeAll chars
        (unpackUint32s (rest ++ List.replicate (encPaddingSize rest.length) 0))).length := by
      rw [encodeAll_length]
      have := unpack_len_pos _ hlen4
      omega
    exact take_append_sub _ _ _ (by have := encPaddingSize_le rest.length; omega)

theorem ascii85_lookup_117 : ASCII85_ORDS.lookup 117 = some 84 := by decide

theorem decodeBody_onebyte (b0 : Nat) (h0 : b0 < 256) :
    b85decodeBody ASCII85_ORDS [ASCII85_CHARS.getD (beUint32 b0 0 0 0 / 52200625) 0,
      ASCII85_CHARS.getD (beUint32 b0 0 0 0 / 614125 % 85) 0] = .ok [b0] := by
  have hvval : beUint32 b0 0 0 0 = b0 * 16777216 := by simp [beUint32]; ring
  rw [hvval]
  have hi0 : b0 * 16777216 / 52200625 < 85 := by omega
  have hi1 : b0 * 16777216 / 614125 % 85 < 85 := by omega
  have hdp : decPaddingSize ([ASCII85_CHARS.getD (b0 * 16777216 / 52200625) 0,
      ASCII85_CHARS.getD (b0 * 16777216 / 614125 % 85) 0] : List Nat).length = 3 := rfl
  simp only [b85decodeBody, hdp]
  have hpc : parseChunks ASCII85_ORDS
      ([ASCII85_CHARS.getD (b0 * 16777216 / 52200625) 0,
        ASCII85_CHARS.getD (b0 * 16777216 / 614125 % 85) 0] ++ List.replicate 3 117) =
      .ok [(((b0 * 16777216 / 52200625 * 85 + b0 * 16777216 / 614125 % 85) * 85 + 84) * 85
        + 84) * 85 + 84] := by
    show parseChunks ASCII85_ORDS (ASCII85_CHARS.getD (b0 * 16777216 / 52200625) 0 ::
      ASCII85_CHARS.getD (b0 * 16777216 / 614125 % 85) 0 :: 117 :: 117 :: 117 :: []) = _
    simp only [parseChunks, ascii85_lookup_getD hi0, ascii85_lookup_getD hi1, ascii85_lookup_117]
  rw [hpc]
  have hV : (((b0 * 16777216 / 52200625 * 85 + b0 * 16777216 / 614125 % 85) * 85 + 84) * 85
      + 84) * 85 + 84 ≤ 4294967295 := by omega
  simp only [packUint32s, if_pos hV, packUint32, List.append_nil]
  show Except.ok [((((b0 * 16777216 / 52200625 * 85 + b0 * 16777216 / 614125 % 85) * 85 + 84) * 85
      + 84) * 85 + 84) / 16777216] = Except.ok [b0]
  have hdd : b0 * 16777216 / 614125 / 85 = b0 * 16777216 / 52200625 := by
    rw [Nat.div_div_eq_div_mul]
  have hdiv : ((((b0 * 16777216 / 52200625 * 85 + b0 * 16777216 / 614125 % 85) * 85 + 84) * 85
      + 84) * 85 + 84) / 16777216 = b0 := by omega
  rw [hdiv]

theorem decodeBody_twobytes (b0 b1 : Nat) (h0 : b0 < 256) (h1 : b1 < 256) :
    b85decodeBody ASCII85_ORDS [ASCII85_CHARS.getD (beUint32 b0 b1 0 0 / 52200625) 0,
      ASCII85_CHARS.getD (beUint32 b0 b1 0 0 / 614125 % 85) 0,
      ASCII85_CHARS.getD (beUint32 b0 b1 0 0 / 7225 % 85) 0] = .ok [b0, b1] := by
  have hvval : beUint32 b0 b1 0 0 = b0 * 16777216 + b1 * 65536 := by simp [beUint32]; ring
  rw [hvval]
  set v := b0 * 16777216 + b1 * 65536 with hvdef
  have hi0 : v / 52200625 < 85 := by omega
  have hi1 : v / 614125 % 85 < 85 := by omega
  have hi2 : v / 7225 % 85 < 85 := by omega
  have hdp : decPaddingSize ([ASCII85_CHARS.getD (v / 52200625) 0,
      ASCII85_CHARS.getD (v / 614125 % 85) 0,
      ASCII85_CHARS.getD (v / 7225 % 85) 0] : List Nat).length = 2 := rfl
  simp only [b85decodeBody, hdp]
  have hpc : parseChunks ASCII85_ORDS
      ([ASCII85_CHARS.getD (v / 52200625) 0, ASCII85_CHARS.getD (v / 614125 % 85) 0,
        ASCII85_CHARS.getD (v / 7225 % 85) 0] ++ List.replicate 2 117) =
      .ok [(((v / 52200625 * 85 + v / 614125 % 85) * 85 + v / 7225 % 85) * 85 + 84) * 85 + 84] := by
    show parseChunks ASCII85_ORDS (ASCII85_CHARS.getD (v / 52200625) 0 ::
      ASCII85_CHARS.getD (v / 614125 % 85) 0 :: ASCII85_CHARS.getD (v / 7225 % 85) 0 ::
      117 :: 117 :: []) = _
    simp only [parseChunks, ascii85_lookup_getD hi0, ascii85_lookup_getD hi1,
      ascii85_lookup_getD hi2, ascii85_lookup_117]
  rw [hpc]
  set V := (((v / 52200625 * 85 + v / 614125 % 85) * 85 + v / 7225 % 85) * 85 + 84) * 85 + 84
    with hVdef
  have hdd1 : v / 614125 / 85 = v / 52200625 := by rw [Nat.div_div_eq_div_mul]
  have hdd2 : v / 7225 / 85 = v / 614125 := by rw [Nat.div_div_eq_div_mul]
  have hV : V ≤ 4294967295 := by omega
  simp only [packUint32s, if_pos hV, packUint32, List.append_nil]
  show Except.ok [V / 16777216, V / 65536 % 256] = Except.ok [b0, b1]
  have hq1 : V / 65536 / 256 = V / 16777216 := by rw [Nat.div_div_eq_div_mul]
  have hd1 : V / 16777216 = b0 := by omega
  have hd2 : V / 65536 % 256 = b1 := by omega
  rw [hd1, hd2]

theorem decodeBody_threebytes (b0 b1 b2 : Nat) (h0 : b0 < 256) (h1 : b1 < 256) (h2 : b2 < 256) :
    b85decodeBody ASCII85_ORDS [ASCII85_CHARS.getD (beUint32 b0 b1 b2 0 / 52200625) 0,
      ASCII85_CHARS.getD (beUint32 b0 b1 b2 0 / 614125 % 85) 0,
      ASCII85_CHARS.getD (beUint32 b0 b1 b2 0 / 7225 % 85) 0,
      ASCII85_CHARS.getD (beUint32 b0 b1 b2 0 / 85 % 85) 0] = .ok [b0, b1, b2] := by
  have hvval : beUint32 b0 b1 b2 0 = b0 * 16777216 + b1 * 65536 + b2 * 256 := by
    simp [beUint32]; ring
  rw [hvval]
  set v := b0 * 16777216 + b1 * 65536 + b2 * 256 with hvdef
  have hi0 : v / 52200625 < 85 := by omega
  have hi1 : v / 614125 % 85 < 85 := by omega
  have hi2 : v / 7225 % 85 < 85 := by omega
  have hi3 : v / 85 % 85 < 85 := by omega
  have hdp : decPaddingSize ([ASCII85_CHARS.getD (v / 52200625) 0,
      ASCII85_CHARS.getD (v / 614125 % 85) 0, ASCII85_CHARS.getD (v / 7225 % 85) 0,
      ASCII85_CHARS.getD (v / 85 % 85) 0] : List Nat).length = 1 := rfl
  simp only [b85decodeBody, hdp]
  have hpc : parseChunks ASCII85_ORDS
      ([ASCII85_CHARS.getD (v / 52200625) 0, ASCII85_CHARS.getD (v / 614125 % 85) 0,
        ASCII85_CHARS.getD (v / 7225 % 85) 0, ASCII85_CHARS.getD (v / 85 % 85) 0] ++
          List.replicate 1 117) =
      .ok [(((v / 52200625 * 85 + v / 614125 % 85) * 85 + v / 7225 % 85) * 85 + v / 85 % 85) * 85
        + 84] := by
    show parseChunks ASCII85_ORDS (ASCII85_CHARS.getD (v / 52200625) 0 ::
      ASCII85_CHARS.getD (v / 614125 % 85) 0 :: ASCII85_CHARS.getD (v / 7225 % 85) 0 ::
      ASCII85_CHARS.getD (v / 85 % 85) 0 :: 117 :: []) = _
    simp only [parseChunks, ascii85_lookup_getD hi0, ascii85_lookup_getD hi1,
      ascii85_lookup_getD hi2, ascii85_lookup_getD hi3, ascii85_lookup_117]
  rw [hpc]
  set V := (((v / 52200625 * 85 + v / 614125 % 85) * 85 + v / 7225 % 85) * 85 + v / 85 % 85) * 85
      + 84 with hVdef
  have hdd1 : v / 614125 / 85 = v / 52200625 := by rw [Nat.div_div_eq_div_mul]
  have hdd2 : v / 7225 / 85 = v / 614125 := by rw [Nat.div_div_eq_div_mul]
  have hdd3 : v / 85 / 85 = v / 7225 := by rw [Nat.div_div_eq_div_mul]
  have hV : V ≤ 4294967295 := by omega
  simp only [packUint32s, if_pos hV, packUint32, List.append_nil]
  show Except.ok [V / 16777216, V / 65536 % 256, V / 256 % 256] = Except.ok [b0, b1, b2]
  have hq1 : V / 65536 / 256 = V / 16777216 := by rw [Nat.div_div_eq_div_mul]
  have hq2 : V / 256 / 256 = V / 65536 := by rw [Nat.div_div_eq_div_mul]
  have hd1 : V / 16777216 = b0 := by omega
  have hd2 : V / 65536 % 256 = b1 := by omega
  have hd3 : V / 256 % 256 = b2 := by omega
  rw [hd1, hd2, hd3]

theorem parseChunks_ok_length (ords : List (Nat × Nat)) :
    ∀ (l : List Nat) {vs : List Nat}, parseChunks ords l = .ok vs → l.length ≤ 5 * vs.length + 4
  | [], vs, h => by
    simp only [parseChunks, Except.ok.injEq] at h
    subst h
    simp
  | [c1], vs, h => by
    simp only [parseChunks, Except.ok.injEq] at h
    subst h
    simp
  | [c1, c2], vs, h => by
    simp only [parseChunks, Except.ok.injEq] at h
    subst h
    simp
  | [c1, c2, c3], vs, h => by
    simp only [parseChunks, Except.ok.injEq] at h
    subst h
    simp
  | [c1, c2, c3, c4], vs, h => by
    simp only [parseChunks, Except.ok.injEq] at h
    subst h
    simp
  | c1 :: c2 :: c3 :: c4 :: c5 :: rest, vs, h => by
    simp only [parseChunks] at h
    split at h
    · split at h
      · rename_i vs2 heq
        simp only [Except.ok.injEq] at h
        subst h
        have ih := parseChunks_ok_length ords rest heq
        simp only [List.length_cons]
        omega
      · simp at h
    · simp at h

theorem decodeBody_encodeChars : ∀ (raw : List Nat), (∀ b ∈ raw, b < 256) →
    b85decodeBody ASCII85_ORDS (b85encodeChars raw false ASCII85_CHARS) = .ok raw
  | [], _ => rfl
  | [b0], h => by
    have hT : b85encodeChars [b0] false ASCII85_CHARS =
        [ASCII85_CHARS.getD (beUint32 b0 0 0 0 / 52200625) 0,
         ASCII85_CHARS.getD (beUint32 b0 0 0 0 / 614125 % 85) 0] := rfl
    rw [hT]
    exact decodeBody_onebyte b0 (h b0 (by simp))
  | [b0, b1], h => by
    have hT : b85encodeChars [b0, b1] false ASCII85_CHARS =
        [ASCII85_CHARS.getD (beUint32 b0 b1 0 0 / 52200625) 0,
         ASCII85_CHARS.getD (beUint32 b0 b1 0 0 / 614125 % 85) 0,
         ASCII85_CHARS.getD (beUint32 b0 b1 0 0 / 7225 % 85) 0] := rfl
    rw [hT]
    exact decodeBody_twobytes b0 b1 (h b0 (by simp)) (h b1 (by simp))
  | [b0, b1, b2], h => by
    have hT : b85encodeChars [b0, b1, b2] false ASCII85_CHARS =
        [ASCII85_CHARS.getD (beUint32 b0 b1 b2 0 / 52200625) 0,
         ASCII85_CHARS.getD (beUint32 b0 b1 b2 0 / 614125 % 85) 0,
         ASCII85_CHARS.getD (beUint32 b0 b1 b2 0 / 7225 % 85) 0,
         ASCII85_CHARS.getD (beUint32 b0 b1 b2 0 / 85 % 85) 0] := rfl
    rw [hT]
    exact decodeBody_threebytes b0 b1 b2 (h b0 (by simp)) (h b1 (by simp)) (h b2 (by simp))
  | b0 :: b1 :: b2 :: b3 :: rest, h => by
    rw [b85encodeChars_cons4]
    have hb0 := h b0 (by simp)
    have hb1 := h b1 (by simp)
    have hb2 := h b2 (by simp)
    have hb3 := h b3 (by simp)
    have hvlt : beUint32 b0 b1 b2 b3 < 4294967296 := by simp only [beUint32]; omega
    have ih := decodeBody_encodeChars rest (fun b hb => h b (by simp [hb]))
    set T := b85encodeChars rest false ASCII85_CHARS with hTdef
    set v := beUint32 b0 b1 b2 b3 with hv
    have hlen : (encodeUint32 ASCII85_CHARS v ++ T).length = 5 + T.length := by
      rw [List.length_append]
      have h5 : (encodeUint32 ASCII85_CHARS v).length = 5 := rfl
      omega
    have hdp5 : decPaddingSize (5 + T.length) = decPaddingSize T.length := by
      simp only [decPaddingSize]
      have hm : (5 + T.length) % 5 = T.length % 5 := by omega
      rw [hm]
    simp only [b85decodeBody, hlen, hdp5, List.append_assoc] at ih ⊢
    rw [parseChunks_enc_cons hvlt]
    cases hpc : parseChunks ASCII85_ORDS (T ++ List.replicate (decPaddingSize T.length) 117) with
    | error e =>
      rw [hpc] at ih
      simp at ih
    | ok vs =>
      rw [hpc] at ih
      dsimp only at ih
      simp only [Except.map]
      cases hpk : packUint32s vs with
      | error e2 =>
        rw [hpk] at ih
        simp at ih
      | ok bs =>
        rw [hpk] at ih
        dsimp only at ih
        have hvle : v ≤ 4294967295 := by omega
        simp only [packUint32s, if_pos hvle, hpk]
        simp only [Except.ok.injEq] at ih
        by_cases hp : decPaddingSize T.length = 0
        · rw [hp] at ih ⊢
          simp only [ne_eq, not_true_eq_false, if_false] at ih ⊢
          rw [ih, hv, packUint32_be hb0 hb1 hb2 hb3]
          simp
        · have hbs : bs.length = 4 * vs.length := packUint32s_ok_length hpk
          have hlplen := parseChunks_ok_length ASCII85_ORDS _ hpc
          have hTmod : T.length % 5 ≠ 0 := fun hz => hp (by simp [decPaddingSize, hz])
          have hmod0 : (T.length + decPaddingSize T.length) % 5 = 0 := by
            simp only [decPaddingSize, if_pos hTmod]
            omega
          have hvsp : 1 ≤ vs.length := by
            simp only [List.length_append, List.length_replicate] at hlplen
            have hle4 := decPaddingSize_le T.length
            omega
          have hple : decPaddingSize T.length ≤ bs.length := by
            have hle4 := decPaddingSize_le T.length
            omega
          rw [if_pos hp] at ih
          rw [if_pos hp]
          rw [take_append_sub _ _ _ hple]
          rw [ih, hv, packUint32_be hb0 hb1 hb2 hb3]
          simp

theorem encodeUint32_mem_range {v c : Nat} (hv : v < 4294967296)
    (hc : c ∈ encodeUint32 ASCII85_CHARS v) : 33 ≤ c ∧ c ≤ 117 := by
  have hgetD : ∀ i : Nat, i < 85 → 33 ≤ ASCII85_CHARS.getD i 0 ∧ ASCII85_CHARS.getD i 0 ≤ 117 := by
    intro i hi
    rw [ascii85_getD hi]
    omega
  simp only [encodeUint32, List.mem_cons, List.not_mem_nil, or_false] at hc
  rcases hc with rfl | rfl | rfl | rfl | rfl
  · exact hgetD _ (by omega)
  · exact hgetD _ (by omega)
  · exact hgetD _ (by omega)
  · exact hgetD _ (by omega)
  · exact hgetD _ (by omega)

theorem encodeAll_mem {chars : List Nat} : ∀ {vs : List Nat} {c : Nat},
    c ∈ encodeAll chars vs → ∃ v ∈ vs, c ∈ encodeUint32 chars v := by
  intro vs
  induction vs with
  | nil =>
    intro c hc
    simp [encodeAll] at hc
  | cons v vs ih =>
    intro c hc
    simp only [encodeAll, List.mem_append] at hc
    rcases hc with h1 | h2
    · exact ⟨v, by simp, h1⟩
    · obtain ⟨w, hw, hcw⟩ := ih h2
      exact ⟨w, by simp [hw], hcw⟩

theorem encodeChars_range {raw : List Nat} (h : ∀ b ∈ raw, b < 256) (pad : Bool) :
    ∀ c ∈ b85encodeChars raw pad ASCII85_CHARS, 33 ≤ c ∧ c ≤ 117 := by
  intro c hc
  simp only [b85encodeChars] at hc
  have hc2 : c ∈ encodeAll ASCII85_CHARS
      (unpackUint32s (raw ++ List.replicate (encPaddingSize raw.length) 0)) := by
    by_cases hcond : encPaddingSize raw.length ≠ 0 ∧ pad = false
    · rw [if_pos hcond] at hc
      exact List.mem_of_mem_take hc
    · rw [if_neg hcond] at hc
      exact hc
  obtain ⟨w, hw, hcw⟩ := encodeAll_mem hc2
  have hwlt : w < 4294967296 := by
    refine unpack_all_lt _ (fun b hb => ?_) w hw
    rcases List.mem_append.mp hb with h1 | h2
    · exact h b h1
    · have := List.eq_of_mem_replicate h2
      omega
  exact encodeUint32_mem_range hwlt hcw

theorem b85_roundtrip_default (raw : List Nat) (h : ∀ b ∈ raw, b < 256) :
    b85decode (b85encode raw [] [] false ASCII85_CHARS) [] [] true ASCII85_ORDS = .ok raw := by
  have hrange := encodeChars_range h false
  have hTno122 : ∀ c ∈ b85encodeChars raw false ASCII85_CHARS, c ≠ 122 := by
    intro c hc
    have := hrange c hc
    omega
  have henc : b85encode raw [] [] false ASCII85_CHARS =
      pyReplace (b85encodeChars raw false ASCII85_CHARS) [33, 33, 33, 33, 33] [122] := by
    simp [b85encode]
  rw [henc]
  have hEmem : ∀ c ∈ pyReplace (b85encodeChars raw false ASCII85_CHARS) [33, 33, 33, 33, 33] [122],
      (33 ≤ c ∧ c ≤ 117) ∨ c = 122 := by
    intro c hc
    rw [pyReplace] at hc
    rcases pyReplaceAux_mem _ _ c hc with h1 | h2
    · exact .inl (hrange c h1)
    · simp at h2
      exact .inr h2
  have hall : ∀ c ∈ pyReplace (b85encodeChars raw false ASCII85_CHARS) [33, 33, 33, 33, 33] [122],
      c < 256 := by
    intro c hc
    rcases hEmem c hc with ⟨h1, h2⟩ | rfl <;> omega
  simp only [b85decode]
  rw [if_pos hall]
  have hfilter : (pyReplace (b85encodeChars raw false ASCII85_CHARS) [33, 33, 33, 33, 33]
      [122]).filter (fun c => !(WHITESPACE_CHARS.contains c)) =
      pyReplace (b85encodeChars raw false ASCII85_CHARS) [33, 33, 33, 33, 33] [122] := by
    rw [List.filter_eq_self]
    intro c hc
    have h33 : 33 ≤ c := by rcases hEmem c hc with ⟨h1, _⟩ | rfl <;> omega
    rw [ws_contains_false h33]
    rfl
  have hpre : decodePreprocess (pyReplace (b85encodeChars raw false ASCII85_CHARS)
      [33, 33, 33, 33, 33] [122]) [] [] true = b85encodeChars raw false ASCII85_CHARS := by
    simp only [decodePreprocess, hfilter, ite_self]
    have hsl : stripLeading [] (pyReplace (b85encodeChars raw false ASCII85_CHARS)
        [33, 33, 33, 33, 33] [122]) = pyReplace (b85encodeChars raw false ASCII85_CHARS)
        [33, 33, 33, 33, 33] [122] := by
      simp [stripLeading]
    have hst : stripTrailing [] (pyReplace (b85encodeChars raw false ASCII85_CHARS)
        [33, 33, 33, 33, 33] [122]) = pyReplace (b85encodeChars raw false ASCII85_CHARS)
        [33, 33, 33, 33, 33] [122] := by
      simp [stripTrailing]
    rw [hsl, hst]
    rw [pyReplace]
    exact bang_z_inversion _ _ (le_refl _) hTno122
  rw [hpre]
  exact decodeBody_encodeChars raw h

theorem adobe_suffix_isSuffixOf (E : List Nat) :
    List.isSuffixOf [126, 62] (E ++ [126, 62]) = true := by
  rw [List.isSuffixOf]
  rw [List.reverse_append]
  have h1 : ([126, 62] : List Nat).reverse = [62, 126] := rfl
  rw [h1]
  exact isPrefixOf_refl_append _ _

theorem b85_roundtrip_adobe (raw : List Nat) (h : ∀ b ∈ raw, b < 256) :
    b85decode (b85encode raw [60, 126] [126, 62] false ASCII85_CHARS) [60, 126] [126, 62] true
      ASCII85_ORDS = .ok raw := by
  have hrange := encodeChars_range h false
  have hTno122 : ∀ c ∈ b85encodeChars raw false ASCII85_CHARS, c ≠ 122 := by
    intro c hc
    have := hrange c hc
    omega
  have hEmem : ∀ c ∈ pyReplace (b85encodeChars raw false ASCII85_CHARS) [33, 33, 33, 33, 33]
      [122], (33 ≤ c ∧ c ≤ 117) ∨ c = 122 := by
    intro c hc
    rw [pyReplace] at hc
    rcases pyReplaceAux_mem _ _ c hc with h1 | h2
    · exact .inl (hrange c h1)
    · simp at h2
      exact .inr h2
  have hE33 : ∀ c ∈ pyReplace (b85encodeChars raw false ASCII85_CHARS) [33, 33, 33, 33, 33]
      [122], 33 ≤ c := by
    intro c hc
    rcases hEmem c hc with ⟨h1, _⟩ | rfl <;> omega
  have henc : b85encode raw [60, 126] [126, 62] false ASCII85_CHARS =
      [60, 126] ++ (pyReplace (b85encodeChars raw false ASCII85_CHARS) [33, 33, 33, 33, 33]
        [122] ++ [126, 62]) := by
    simp [b85encode]
  rw [henc]
  simp only [b85decode]
  have hall : ∀ c ∈ [60, 126] ++ (pyReplace (b85encodeChars raw false ASCII85_CHARS)
      [33, 33, 33, 33, 33] [122] ++ [126, 62]), c < 256 := by
    intro c hc
    rcases List.mem_append.mp hc with h1 | h2
    · fin_cases h1 <;> omega
    · rcases List.mem_append.mp h2 with h3 | h4
      · rcases hEmem c h3 with ⟨ha, hb⟩ | rfl <;> omega
      · fin_cases h4 <;> omega
  rw [if_pos hall]
  have hmem33 : ∀ c ∈ [60, 126] ++ (pyReplace (b85encodeChars raw false ASCII85_CHARS)
      [33, 33, 33, 33, 33] [122] ++ [126, 62]), 33 ≤ c := by
    intro c hc
    rcases List.mem_append.mp hc with h1 | h2
    · fin_cases h1 <;> omega
    · rcases List.mem_append.mp h2 with h3 | h4
      · exact hE33 c h3
      · fin_cases h4 <;> omega
  have hfil : ([60, 126] ++ (pyReplace (b85encodeChars raw false ASCII85_CHARS)
      [33, 33, 33, 33, 33] [122] ++ [126, 62])).filter
        (fun c => !(WHITESPACE_CHARS.contains c)) =
      [60, 126] ++ (pyReplace (b85encodeChars raw false ASCII85_CHARS) [33, 33, 33, 33, 33]
        [122] ++ [126, 62]) := by
    rw [List.filter_eq_self]
    intro c hc
    rw [ws_contains_false (hmem33 c hc)]
    rfl
  simp only [decodePreprocess, hfil, ite_self]
  have hsl : stripLeading [60, 126] ([60, 126] ++ (pyReplace (b85encodeChars raw false
      ASCII85_CHARS) [33, 33, 33, 33, 33] [122] ++ [126, 62])) =
      pyReplace (b85encodeChars raw false ASCII85_CHARS) [33, 33, 33, 33, 33] [122] ++
        [126, 62] := by
    simp only [stripLeading]
    rw [if_pos ⟨by simp, isPrefixOf_refl_append _ _⟩]
    exact List.drop_left _ _
  rw [hsl]
  have hst : stripTrailing [126, 62] (pyReplace (b85encodeChars raw false ASCII85_CHARS)
      [33, 33, 33, 33, 33] [122] ++ [126, 62]) =
      pyReplace (b85encodeChars raw false ASCII85_CHARS) [33, 33, 33, 33, 33] [122] := by
    simp only [stripTrailing]
    rw [if_pos ⟨by simp, adobe_suffix_isSuffixOf _⟩]
    have hl : (pyReplace (b85encodeChars raw false ASCII85_CHARS) [33, 33, 33, 33, 33] [122] ++
        [126, 62]).length - ([126, 62] : List Nat).length =
        (pyReplace (b85encodeChars raw false ASCII85_CHARS) [33, 33, 33, 33, 33] [122]).length := by
      simp
    rw [hl]
    exact List.take_left _ _
  rw [hst]
  have hfin : pyReplace (pyReplace (b85encodeChars raw false ASCII85_CHARS) [33, 33, 33, 33, 33]
      [122]) [122] [33, 33, 33, 33, 33] = b85encodeChars raw false ASCII85_CHARS :=
    bang_z_inversion _ _ (le_refl _) hTno122
  rw [hfin]
  exact decodeBody_encodeChars raw h

theorem stripLeading_nil (s : List Nat) : stripLeading [] s = s := by
  simp [stripLeading]

theorem stripTrailing_nil (s : List Nat) : stripTrailing [] s = s := by
  simp [stripTrailing]

theorem decodePreprocess_nil_id (s : List Nat) (h33 : ∀ c ∈ s, 33 ≤ c)
    (h117 : ∀ c ∈ s, c ≤ 117) : decodePreprocess s [] [] true = s := by
  have hfil : s.filter (fun c => !(WHITESPACE_CHARS.contains c)) = s := by
    rw [List.filter_eq_self]
    intro c hc
    rw [ws_contains_false (h33 c hc)]
    rfl
  simp only [decodePreprocess, hfil, ite_self, stripLeading_nil, stripTrailing_nil]
  rw [pyReplace]
  exact pyReplaceAux_z_id _ _ (fun c hc => by have := h117 c hc; omega)

theorem b85decode_no_wrappers (e : List Nat)
    (hpre : List.isPrefixOf [60, 126] (e.filter (fun c => !(WHITESPACE_CHARS.contains c))) = false)
    (hsuf : List.isSuffixOf [126, 62] (e.filter (fun c => !(WHITESPACE_CHARS.contains c))) = false) :
    b85decode e [60, 126] [126, 62] true ASCII85_ORDS = b85decode e [] [] true ASCII85_ORDS := by
  simp only [b85decode, decodePreprocess]
  have hsl1 : stripLeading [60, 126] (e.filter (fun c => !(WHITESPACE_CHARS.contains c))) =
      e.filter (fun c => !(WHITESPACE_CHARS.contains c)) := by
    simp only [stripLeading]
    have hn : ¬(([60, 126] : List Nat) ≠ [] ∧ List.isPrefixOf [60, 126]
        (e.filter (fun c => !(WHITESPACE_CHARS.contains c))) = true) := by
      rintro ⟨-, h2⟩
      rw [hpre] at h2
      exact Bool.false_ne_true h2
    rw [if_neg hn]
  have hst1 : stripTrailing [126, 62] (e.filter (fun c => !(WHITESPACE_CHARS.contains c))) =
      e.filter (fun c => !(WHITESPACE_CHARS.contains c)) := by
    simp only [stripTrailing]
    have hn : ¬(([126, 62] : List Nat) ≠ [] ∧ List.isSuffixOf [126, 62]
        (e.filter (fun c => !(WHITESPACE_CHARS.contains c))) = true) := by
      rintro ⟨-, h2⟩
      rw [hsuf] at h2
      exact Bool.false_ne_true h2
    rw [if_neg hn]
  simp only [if_true]
  rw [hsl1, hst1, stripLeading_nil, stripTrailing_nil]

/-! ### Fixed-width codec helper lemmas -/

theorem ipv6Digits_length (chars : List Nat) : ∀ (n v : Nat), (ipv6Digits chars v n).length = n := by
  intro n
  induction n with
  | zero => intro v; simp [ipv6Digits]
  | succ n ih =>
    intro v
    simp only [ipv6Digits, List.length_append, List.length_cons, List.length_nil, ih]

theorem ipv6Digits_mem (chars : List Nat) : ∀ (n v c : Nat), c ∈ ipv6Digits chars v n →
    ∃ d, d < 85 ∧ c = chars.getD d 0 := by
  intro n
  induction n with
  | zero =>
    intro v x hx
    simp [ipv6Digits] at hx
  | succ n ih =>
    intro v x hx
    simp only [ipv6Digits, List.mem_append, List.mem_cons, List.not_mem_nil, or_false] at hx
    rcases hx with h1 | h2
    · exact ih _ _ h1
    · exact ⟨v % 85, by omega, h2⟩

theorem ipv6Digits_getD (chars : List Nat) : ∀ (n v i : Nat), i < n →
    (ipv6Digits chars v n).getD i 0 = chars.getD (v / 85 ^ (n - 1 - i) % 85) 0 := by
  intro n
  induction n with
  | zero =>
    intro v i hi
    omega
  | succ n ih =>
    intro v i hi
    by_cases hin : i < n
    · have hpre : (ipv6Digits chars (v / 85) n).length = n := ipv6Digits_length chars n _
      rw [ipv6Digits, List.getD_append _ _ _ _ (by rw [hpre]; exact hin)]
      rw [ih _ _ hin]
      have hdd : v / 85 / 85 ^ (n - 1 - i) = v / 85 ^ (n - i) := by
        rw [Nat.div_div_eq_div_mul]
        have hexp : 85 * 85 ^ (n - 1 - i) = 85 ^ (n - i) := by
          have hni : n - i = (n - 1 - i) + 1 := by omega
          rw [hni, pow_succ]
          ring
        rw [hexp]
      rw [hdd]
      have hsub : n + 1 - 1 - i = n - i := by omega
      rw [hsub]
    · have hieq : i = n := by omega
      subst hieq
      have hpre : (ipv6Digits chars (v / 85) i).length = i := ipv6Digits_length chars i _
      rw [ipv6Digits, List.getD_append_right _ _ _ _ (by rw [hpre])]
      rw [hpre]
      simp only [Nat.sub_self, List.getD_cons_zero]
      have hsub : i + 1 - 1 - i = 0 := by omega
      rw [hsub, pow_zero, Nat.div_one]

theorem ipv6DecodeLoop_append (ords : List (Nat × Nat)) (ws : List Nat) :
    ∀ (l1 l2 : List Nat) (acc : Nat),
      ipv6DecodeLoop ords ws acc (l1 ++ l2) =
        match ipv6DecodeLoop ords ws acc l1 with
        | .ok a => ipv6DecodeLoop ords ws a l2
        | .error err => .error err := by
  intro l1
  induction l1 with
  | nil =>
    intro l2 acc
    simp [ipv6DecodeLoop]
  | cons c rest ih =>
    intro l2 acc
    simp only [List.cons_append, ipv6DecodeLoop]
    by_cases hw : c ∈ ws
    · simp [hw]
    · simp only [hw, if_false]
      cases hlk : ords.lookup c with
      | some o => exact ih l2 (acc * 85 + o)
      | none => rfl

theorem ipv6_digits_decode : ∀ (n v acc : Nat), v < 85 ^ n →
    ipv6DecodeLoop RFC1924_ORDS WHITESPACE_CHARS acc (ipv6Digits RFC1924_CHARS v n) =
      .ok (acc * 85 ^ n + v) := by
  intro n
  induction n with
  | zero =>
    intro v acc hv
    have hv0 : v = 0 := by simpa using hv
    subst hv0
    simp [ipv6Digits, ipv6DecodeLoop]
  | succ n ih =>
    intro v acc hv
    have hdlt : v / 85 < 85 ^ n := by
      rw [Nat.div_lt_iff_lt_mul (by norm_num : (0:Nat) < 85)]
      rw [← pow_succ]
      exact hv
    simp only [ipv6Digits, ipv6DecodeLoop_append, ih _ _ hdlt]
    obtain ⟨hlt256, hws, hlk⟩ := rfc1924_getD_facts (Nat.mod_lt v (by norm_num) : v % 85 < 85)
    simp only [ipv6DecodeLoop, hws, if_false, hlk]
    have harith : (acc * 85 ^ n + v / 85) * 85 + v % 85 = acc * 85 ^ (n + 1) + v := by
      have hdm : 85 * (v / 85) + v % 85 = v := Nat.div_add_mod v 85
      calc (acc * 85 ^ n + v / 85) * 85 + v % 85
          = acc * (85 ^ n * 85) + (85 * (v / 85) + v % 85) := by ring
        _ = acc * 85 ^ (n + 1) + v := by rw [pow_succ, hdm]
    rw [harith]

theorem ipv6DecodeLoop_ok (ords : List (Nat × Nat)) (ws : List Nat) :
    ∀ (l : List Nat) (acc : Nat),
      (∀ c ∈ l, c ∉ ws ∧ (ords.lookup c).isSome = true) →
      ipv6DecodeLoop ords ws acc l =
        .ok (l.foldl (fun a c => a * 85 + (ords.lookup c).getD 0) acc) := by
  intro l
  induction l with
  | nil =>
    intro acc h
    simp [ipv6DecodeLoop]
  | cons c rest ih =>
    intro acc h
    obtain ⟨hcw, hcs⟩ := h c (by simp)
    obtain ⟨o, ho⟩ := Option.isSome_iff_exists.mp hcs
    simp only [ipv6DecodeLoop, hcw, if_false, ho]
    rw [ih _ (fun x hx => h x (by simp [hx]))]
    simp only [List.foldl_cons, ho, Option.getD_some]

theorem ipv6DecodeLoop_bad (ords : List (Nat × Nat)) (ws : List Nat) :
    ∀ (l : List Nat) (acc : Nat),
      (∃ c ∈ l, c ∈ ws ∨ ords.lookup c = none) →
      ∃ err, ipv6DecodeLoop ords ws acc l = .error err ∧
        (err = PyErr.valueWhitespace ∨ ∃ ch, err = PyErr.keyError ch) := by
  intro l
  induction l with
  | nil =>
    intro acc h
    simp at h
  | cons c rest ih =>
    intro acc h
    by_cases hw : c ∈ ws
    · exact ⟨.valueWhitespace, by simp [ipv6DecodeLoop, hw], .inl rfl⟩
    · cases hlk : ords.lookup c with
      | none =>
        refine ⟨.keyError c, ?_, .inr ⟨c, rfl⟩⟩
        simp [ipv6DecodeLoop, hw, hlk]
      | some o =>
        have hrest : ∃ x ∈ rest, x ∈ ws ∨ ords.lookup x = none := by
          obtain ⟨x, hx, hbad⟩ := h
          rcases List.mem_cons.mp hx with rfl | hxr
          · rcases hbad with h1 | h2
            · exact absurd h1 hw
            · rw [hlk] at h2
              exact absurd h2 (by simp)
          · exact ⟨x, hxr, hbad⟩
        obtain ⟨err, herr, hkind⟩ := ih (acc * 85 + o) hrest
        refine ⟨err, ?_, hkind⟩
        simp only [ipv6DecodeLoop, hw, if_false, hlk]
        exact herr

theorem b85decode_overflow_chunk {a b c d e oa ob oc od oe : Nat}
    (ha : ASCII85_ORDS.lookup a = some oa) (hb : ASCII85_ORDS.lookup b = some ob)
    (hc : ASCII85_ORDS.lookup c = some oc) (hd : ASCII85_ORDS.lookup d = some od)
    (he : ASCII85_ORDS.lookup e = some oe)
    (hover : 4294967295 < ((((oa * 85 + ob) * 85 + oc) * 85 + od) * 85 + oe)) :
    b85decode [a, b, c, d, e] [] [] true ASCII85_ORDS = .error .structError := by
  obtain ⟨ha1, ha2, -⟩ := ascii85_ords_range ha
  obtain ⟨hb1, hb2, -⟩ := ascii85_ords_range hb
  obtain ⟨hc1, hc2, -⟩ := ascii85_ords_range hc
  obtain ⟨hd1, hd2, -⟩ := ascii85_ords_range hd
  obtain ⟨he1, he2, -⟩ := ascii85_ords_range he
  simp only [b85decode]
  rw [if_pos (by intro x hx; fin_cases hx <;> omega)]
  rw [decodePreprocess_nil_id _ (by intro x hx; fin_cases hx <;> omega)
    (by intro x hx; fin_cases hx <;> omega)]
  simp only [b85decodeBody]
  have hdp : decPaddingSize ([a, b, c, d, e] : List Nat).length = 0 := by simp [decPaddingSize]
  rw [hdp]
  simp only [List.replicate_zero, List.append_nil]
  simp only [parseChunks, ha, hb, hc, hd, he]
  simp only [packUint32s]
  rw [if_neg (by omega)]

/-! ### Claim theorems -/

/-- C1: for every byte buffer, of every length including zero and lengths not
divisible by four, decoding the encoding with the default arguments (standard
alphabet, no wrappers, padding excluded) recovers the buffer exactly. -/
theorem C1_b85_roundtrip (raw : List Nat) (h : ∀ b ∈ raw, b < 256) :
    b85decode (b85encode raw [] [] false ASCII85_CHARS) [] [] true ASCII85_ORDS = .ok raw :=
  b85_roundtrip_default raw h

/-- Witness for C1 at a three-byte buffer. -/
theorem C1_b85_roundtrip_witness :
    b85decode (b85encode [77, 97, 110] [] [] false ASCII85_CHARS) [] [] true ASCII85_ORDS =
      .ok [77, 97, 110] :=
  C1_b85_roundtrip [77, 97, 110] (by decide)

/-- C2 counterexample: the five-character group of codes 115 56 87 45 34,
whose base85 value is exactly 2^32 and whose characters are all members of
the standard alphabet, is rejected by b85decode with the struct error of the
pack step; it is not accepted and packed as 2^32 mod 2^32 = 0. -/
theorem C2_counterexample :
    b85decode [115, 56, 87, 45, 34] [] [] true ASCII85_ORDS = .error .structError ∧
      b85decode [115, 56, 87, 45, 34] [] [] true ASCII85_ORDS ≠ .ok [0, 0, 0, 0] := by
  refine ⟨rfl, fun hcontra => ?_⟩
  rw [show b85decode [115, 56, 87, 45, 34] [] [] true ASCII85_ORDS =
    .error .structError from rfl] at hcontra
  exact Except.noConfusion hcontra

/-- C2 amended: a five-character group of valid standard-alphabet characters
whose base85 value exceeds 2^32−1 is not accepted by b85decode: the pack step
rejects the out-of-range value with the struct error, so no truncating or
wrapping conversion takes place. -/
theorem C2_overflow_rejected (a b c d e oa ob oc od oe : Nat)
    (ha : ASCII85_ORDS.lookup a = some oa) (hb : ASCII85_ORDS.lookup b = some ob)
    (hc : ASCII85_ORDS.lookup c = some oc) (hd : ASCII85_ORDS.lookup d = some od)
    (he : ASCII85_ORDS.lookup e = some oe)
    (hover : 4294967295 < ((((oa * 85 + ob) * 85 + oc) * 85 + od) * 85 + oe)) :
    b85decode [a, b, c, d, e] [] [] true ASCII85_ORDS = .error .structError :=
  b85decode_overflow_chunk ha hb hc hd he hover

/-- Witness for the amended C2 at the group of value 2^32 + 1. -/
theorem C2_overflow_rejected_witness :
    b85decode [115, 56, 87, 45, 35] [] [] true ASCII85_ORDS = .error .structError :=
  C2_overflow_rejected 115 56 87 45 35 82 23 54 12 2 (by decide) (by decide) (by decide)
    (by decide) (by decide) (by decide)

/-- C3: on single-byte texts, ipv6_b85decode fails with the length value
error for every length other than twenty; a twenty-character text containing
whitespace or a character outside the RFC1924 alphabet fails with a
validation failure (the whitespace value error or the key error of the
ordinal lookup); otherwise the result is the left-to-right accumulation of
value times 85 plus the ordinal of each character. -/
theorem C3_ipv6_decode_spec (e : List Nat) (h256 : ∀ c ∈ e, c < 256) :
    (e.length ≠ 20 → ipv6_b85decode e RFC1924_ORDS WHITESPACE_CHARS =
        .error (.valueLengthError e)) ∧
    (e.length = 20 → (∃ c ∈ e, c ∈ WHITESPACE_CHARS ∨ RFC1924_ORDS.lookup c = none) →
      ∃ err, ipv6_b85decode e RFC1924_ORDS WHITESPACE_CHARS = .error err ∧
        (err = PyErr.valueWhitespace ∨ ∃ ch, err = PyErr.keyError ch)) ∧
    ((∀ c ∈ e, c ∉ WHITESPACE_CHARS ∧ (RFC1924_ORDS.lookup c).isSome = true) → e.length = 20 →
      ipv6_b85decode e RFC1924_ORDS WHITESPACE_CHARS =
        .ok (e.foldl (fun acc c => acc * 85 + (RFC1924_ORDS.lookup c).getD 0) 0)) := by
  refine ⟨?_, ?_, ?_⟩
  · intro hlen
    simp only [ipv6_b85decode]
    rw [if_pos h256, if_pos hlen]
  · intro hlen hbad
    obtain ⟨err, herr, hkind⟩ := ipv6DecodeLoop_bad _ _ e 0 hbad
    refine ⟨err, ?_, hkind⟩
    simp only [ipv6_b85decode]
    rw [if_pos h256, if_neg (fun hne => hne hlen)]
    exact herr
  · intro hgood hlen
    simp only [ipv6_b85decode]
    rw [if_pos h256, if_neg (fun hne => hne hlen)]
    exact ipv6DecodeLoop_ok _ _ e 0 hgood

/-- Witness for C3: a nineteen-character text hits the length error, a
twenty-character text with a leading space hits a validation failure, and
twenty zero digits decode to zero. -/
theorem C3_ipv6_decode_spec_witness :
    ipv6_b85decode (List.replicate 19 97) RFC1924_ORDS WHITESPACE_CHARS =
      .error (.valueLengthError (List.replicate 19 97)) ∧
    (∃ err, ipv6_b85decode (32 :: List.replicate 19 97) RFC1924_ORDS WHITESPACE_CHARS =
      .error err ∧ (err = PyErr.valueWhitespace ∨ ∃ ch, err = PyErr.keyError ch)) ∧
    ipv6_b85decode (List.replicate 20 48) RFC1924_ORDS WHITESPACE_CHARS = .ok 0 := by
  refine ⟨(C3_ipv6_decode_spec _ (by decide)).1 (by decide),
    (C3_ipv6_decode_spec _ (by decide)).2.1 (by decide) (by decide), ?_⟩
  have h3 := (C3_ipv6_decode_spec (List.replicate 20 48) (by decide)).2.2 (by decide) (by decide)
  exact h3.trans (by rfl)

/-- C4: b85encode substitutes the marker character of code 122 for every
occurrence of the five-character all-zero standard group (code 33 repeated
five times) whatever the alphabet argument, and b85decode expands every
marker back to that same group; in particular the all-zero block encodes to
the single marker and the marker decodes back to it under the standard
alphabet, and a four-byte RFC1924 block whose digits are the code 33
character is also compressed to and recovered from the marker. -/
theorem C4_zero_run_marker :
    (∀ (raw pre suf : List Nat) (pad : Bool) (chars : List Nat),
        b85encode raw pre suf pad chars =
          pre ++ pyReplace (b85encodeChars raw pad chars) [33, 33, 33, 33, 33] [122] ++ suf) ∧
    (∀ (e pre suf : List Nat) (strip_ws : Bool) (ords : List (Nat × Nat)),
        b85decode e pre suf strip_ws ords =
          if ∀ c ∈ e, c < 256 then
            b85decodeBody ords
              (pyReplace (stripTrailing suf (stripLeading pre
                (if strip_ws then e.filter (fun c => !(WHITESPACE_CHARS.contains c)) else e)))
                [122] [33, 33, 33, 33, 33])
          else .error .unicodeDecodeError) ∧
    b85encode [0, 0, 0, 0] [] [] false ASCII85_CHARS = [122] ∧
    b85decode [122] [] [] true ASCII85_ORDS = .ok [0, 0, 0, 0] ∧
    b85encode [195, 52, 10, 230] [] [] false RFC1924_CHARS = [122] ∧
    b85decode [122] [] [] true RFC1924_ORDS = .ok [195, 52, 10, 230] :=
  ⟨fun _ _ _ _ _ => rfl, fun _ _ _ _ _ => rfl, rfl, rfl, rfl, rfl⟩

/-- C5: ipv6_b85encode fails with the range value error on every negative
input and with the range overflow error on every input above 2^128−1, and on
every input in range it returns exactly twenty characters, most significant
digit first, position i holding the RFC1924 character of value div 85^(19−i)
mod 85. -/
theorem C5_ipv6_encode_spec (x : Int) :
    (x < 0 → ipv6_b85encode x RFC1924_CHARS = .error .valueNegative) ∧
    (340282366920938463463374607431768211455 < x →
      ipv6_b85encode x RFC1924_CHARS = .error .overflowTooLarge) ∧
    ((340282366920938463463374607431768211455 : Int) = 2 ^ 128 - 1) ∧
    (0 ≤ x → x ≤ 340282366920938463463374607431768211455 →
      ∃ l, ipv6_b85encode x RFC1924_CHARS = .ok l ∧ l.length = 20 ∧
        ∀ i, i < 20 → l.getD i 0 = RFC1924_CHARS.getD (x.toNat / 85 ^ (19 - i) % 85) 0) := by
  refine ⟨?_, ?_, by norm_num, ?_⟩
  · intro hneg
    simp only [ipv6_b85encode]
    rw [if_pos hneg]
  · intro hbig
    simp only [ipv6_b85encode]
    rw [if_neg (by omega), if_pos hbig]
  · intro h0 hle
    refine ⟨ipv6Digits RFC1924_CHARS x.toNat 20, ?_, ipv6Digits_length _ _ _, ?_⟩
    · simp only [ipv6_b85encode]
      rw [if_neg (by omega), if_neg (by omega)]
    · intro i hi
      have hgd := ipv6Digits_getD RFC1924_CHARS 20 x.toNat i hi
      have hsub : 20 - 1 - i = 19 - i := by omega
      rw [hsub] at hgd
      exact hgd

/-- Witness for C5 at the negative input minus one and at 2^128. -/
theorem C5_ipv6_encode_spec_witness :
    ipv6_b85encode (-1) RFC1924_CHARS = .error .valueNegative ∧
    ipv6_b85encode 340282366920938463463374607431768211456 RFC1924_CHARS =
      .error .overflowTooLarge :=
  ⟨(C5_ipv6_encode_spec (-1)).1 (by decide),
   (C5_ipv6_encode_spec 340282366920938463463374607431768211456).2.1 (by decide)⟩

/-- C6: for every value in the 128-bit range, decoding the fixed-width
encoding recovers the value exactly. -/
theorem C6_ipv6_roundtrip (x : Nat) (hx : x < 340282366920938463463374607431768211456) :
    (ipv6_b85encode (x : Int) RFC1924_CHARS).bind
      (fun l => ipv6_b85decode l RFC1924_ORDS WHITESPACE_CHARS) = .ok x := by
  have henc : ipv6_b85encode (x : Int) RFC1924_CHARS = .ok (ipv6Digits RFC1924_CHARS x 20) := by
    simp only [ipv6_b85encode]
    rw [if_neg (by omega), if_neg (by omega)]
    simp
  rw [henc]
  simp only [Except.bind]
  simp only [ipv6_b85decode]
  have hall : ∀ c ∈ ipv6Digits RFC1924_CHARS x 20, c < 256 := by
    intro c hc
    obtain ⟨d, hd, rfl⟩ := ipv6Digits_mem _ _ _ _ hc
    exact (rfc1924_getD_facts hd).1
  rw [if_pos hall, if_neg (by rw [ipv6Digits_length]; omega)]
  have hx85 : x < 85 ^ 20 := by
    have h220 : (340282366920938463463374607431768211456 : Nat) ≤ 85 ^ 20 := by norm_num
    omega
  rw [ipv6_digits_decode 20 x 0 hx85]
  norm_num

/-- Witness for C6 at 2^64. -/
theorem C6_ipv6_roundtrip_witness :
    (ipv6_b85encode ((18446744073709551616 : Nat) : Int) RFC1924_CHARS).bind
      (fun l => ipv6_b85decode l RFC1924_ORDS WHITESPACE_CHARS) = .ok 18446744073709551616 :=
  C6_ipv6_roundtrip 18446744073709551616 (by decide)

/-- C7: for every byte buffer, decoding with the Adobe wrappers the text
produced by encoding with those wrappers recovers the buffer exactly; and on
a text carrying neither wrapper after whitespace removal, decoding with the
wrapper arguments equals decoding without them, so their absence is not an
error. -/
theorem C7_adobe_roundtrip :
    (∀ (data : List Nat), (∀ b ∈ data, b < 256) →
      b85decode (b85encode data [60, 126] [126, 62] false ASCII85_CHARS) [60, 126] [126, 62]
        true ASCII85_ORDS = .ok data) ∧
    (∀ (e : List Nat),
      List.isPrefixOf [60, 126] (e.filter (fun c => !(WHITESPACE_CHARS.contains c))) = false →
      List.isSuffixOf [126, 62] (e.filter (fun c => !(WHITESPACE_CHARS.contains c))) = false →
      b85decode e [60, 126] [126, 62] true ASCII85_ORDS = b85decode e [] [] true ASCII85_ORDS) :=
  ⟨b85_roundtrip_adobe, b85decode_no_wrappers⟩

/-- Witness for C7 at a five-byte buffer and at a wrapper-free text. -/
theorem C7_adobe_roundtrip_witness :
    b85decode (b85encode [10, 20, 30, 40, 50] [60, 126] [126, 62] false ASCII85_CHARS)
      [60, 126] [126, 62] true ASCII85_ORDS = .ok [10, 20, 30, 40, 50] ∧
    b85decode [56, 56, 56, 56, 56] [60, 126] [126, 62] true ASCII85_ORDS =
      b85decode [56, 56, 56, 56, 56] [] [] true ASCII85_ORDS :=
  ⟨C7_adobe_roundtrip.1 [10, 20, 30, 40, 50] (by decide),
   C7_adobe_roundtrip.2 [56, 56, 56, 56, 56] (by decide) (by decide)⟩

/-- C8 counterexample: decoding the two RFC1924 characters of codes 48 and
123 pads with the literal character u of code 117, whose RFC1924 ordinal is
56, giving the byte 2; padding with the RFC1924 character of ordinal 84
(code 126), the filler the claim describes, would give the byte 3 instead. -/
theorem C8_counterexample :
    b85decode [48, 123] [] [] true RFC1924_ORDS = .ok [2] ∧
    b85decodeSpecFiller [48, 123] [] [] RFC1924_ORDS (RFC1924_CHARS.getD 84 0) = .ok [3] ∧
    RFC1924_CHARS.getD 84 0 = 126 ∧ (126 : Nat) ≠ 117 :=
  ⟨rfl, rfl, rfl, by omega⟩

/-- C8 amended: whenever the prepared text length is not a multiple of five,
b85decode pads the text on the right with the literal character of code 117
(the standard alphabet letter u) regardless of the active alphabet, records
paddingSize = 5 − (length mod 5), and drops exactly paddingSize bytes from
the end of the packed result. -/
theorem C8_decode_padding (e pre suf : List Nat) (ords : List (Nat × Nat))
    (h256 : ∀ c ∈ e, c < 256)
    (hmod : (decodePreprocess e pre suf true).length % 5 ≠ 0) :
    b85decode e pre suf true ords =
      match parseChunks ords (decodePreprocess e pre suf true ++
          List.replicate (5 - (decodePreprocess e pre suf true).length % 5) 117) with
      | .error err => .error err
      | .ok vs =>
        match packUint32s vs with
        | .error err => .error err
        | .ok raw => .ok (raw.take (raw.length -
            (5 - (decodePreprocess e pre suf true).length % 5))) := by
  simp only [b85decode]
  rw [if_pos h256]
  simp only [b85decodeBody]
  have hdp : decPaddingSize (decodePreprocess e pre suf true).length =
      5 - (decodePreprocess e pre suf true).length % 5 := by
    simp [decPaddingSize, hmod]
  rw [hdp]
  have hne : 5 - (decodePreprocess e pre suf true).length % 5 ≠ 0 := by omega
  simp only [if_pos hne]

/-- Witness for the amended C8 at the two-character RFC1924 text. -/
theorem C8_decode_padding_witness :
    b85decode [48, 123] [] [] true RFC1924_ORDS =
      match parseChunks RFC1924_ORDS (decodePreprocess [48, 123] [] [] true ++
          List.replicate (5 - (decodePreprocess [48, 123] [] [] true).length % 5) 117) with
      | .error err => .error err
      | .ok vs =>
        match packUint32s vs with
        | .error err => .error err
        | .ok raw => .ok (raw.take (raw.length -
            (5 - (decodePreprocess [48, 123] [] [] true).length % 5))) :=
  C8_decode_padding [48, 123] [] [] RFC1924_ORDS (by decide) (by decide)

/-- C9: the twenty-character text of the maximum RFC1924 character decodes
without error to 85^20 − 1, which exceeds 2^128 − 1, so the decoder performs
no upper bound check and its result is not always a valid 128-bit value. -/
theorem C9_ipv6_decode_no_upper_bound :
    ipv6_b85decode (List.replicate 20 126) RFC1924_ORDS WHITESPACE_CHARS = .ok (85 ^ 20 - 1) ∧
      340282366920938463463374607431768211455 < 85 ^ 20 - 1 ∧
      (340282366920938463463374607431768211455 : Nat) = 2 ^ 128 - 1 :=
  ⟨rfl, by norm_num, by norm_num⟩

/-- C10: with the default standard alphabet and no wrappers, every character
of the b85encode output is a standard alphabet character (codes 33 through
117) or the marker of code 122, and the marker is not itself an alphabet
character, so the substitution can never collide with an encoded digit. -/
theorem C10_encode_output_chars :
    (∀ (raw : List Nat), (∀ b ∈ raw, b < 256) →
      ∀ c ∈ b85encode raw [] [] false ASCII85_CHARS, (33 ≤ c ∧ c ≤ 117) ∨ c = 122) ∧
    122 ∉ ASCII85_CHARS := by
  constructor
  · intro raw h c hc
    have henc : b85encode raw [] [] false ASCII85_CHARS =
        pyReplace (b85encodeChars raw false ASCII85_CHARS) [33, 33, 33, 33, 33] [122] := by
      simp [b85encode]
    rw [henc, pyReplace] at hc
    rcases pyReplaceAux_mem _ _ c hc with h1 | h2
    · exact .inl (encodeChars_range h false c h1)
    · simp at h2
      exact .inr h2
  · decide

/-- Witness for C10 at a four-byte buffer. -/
theorem C10_encode_output_chars_witness :
    ∀ c ∈ b85encode [0, 0, 0, 1] [] [] false ASCII85_CHARS, (33 ≤ c ∧ c ≤ 117) ∨ c = 122 :=
  C10_encode_output_chars.1 [0, 0, 0, 1] (by decide)
